import Mathlib

/-!
# VirtualNode reconciler: lifecycle decision procedure

A shallow embedding of `controllers/appmesh/virtualnode_controller.go`.

The Go methods `reconcile`, `reconcileVirtualNode` and `cleanupVirtualNode` are
translated statement by statement into state-passing functions over a `World`
(the record store plus the log of collaborator calls made so far).  A Go
`error` value is an `Option Error` (`none` is `nil`).

The collaborators (`k8sClient`, `finalizerManager`, `vnResManager`, `recorder`)
are interfaces whose implementations live outside this file.  What each of them
returns during one invocation is given by an `Outcomes` record: every
collaborator is called at most once per invocation, so quantifying over all
`Outcomes` covers every behaviour the reconciler can observe.
-/

namespace VirtualNodeController

/-! ## Data model -/

/-- Identity of a record: `types.NamespacedName`. -/
structure NamespacedName where
  Namespace : String
  Name : String
deriving DecidableEq, Repr

/-- A Go `error` value, reduced to what the reconciler can observe: whether
`apierrors.IsNotFound` holds for it, and its `Error()` text. -/
structure Error where
  notFound : Bool
  message : String
deriving DecidableEq, Repr

/-- The lifecycle fields the store keeps for a record: the deletion marker
(`metav1.ObjectMeta.DeletionTimestamp`, a nullable time) and the guard tokens
(`metav1.ObjectMeta.Finalizers`). -/
structure Lifecycle where
  DeletionTimestamp : Option Nat
  Finalizers : List String
deriving DecidableEq, Repr

/-- The fetched object `vn *appmesh.VirtualNode`, reduced to its identity and
lifecycle fields (`spec` and `status` are opaque to the reconciler). -/
structure VirtualNode where
  Namespace : String
  Name : String
  DeletionTimestamp : Option Nat
  Finalizers : List String
deriving DecidableEq, Repr

/-- Identity of a fetched object: `k8s.NamespacedName(vn)`. -/
def VirtualNode.key (vn : VirtualNode) : NamespacedName :=
  ⟨vn.Namespace, vn.Name⟩

/-- Method `(*metav1.Time).IsZero`: a nil pointer is zero, otherwise the time is zero
exactly when it is the zero instant (represented by `0`). -/
def IsZero : Option Nat → Bool
  | none => true
  | some t => t == 0

/-- The record store: lifecycle fields by identity; `none` is an absent record. -/
abbrev Store := NamespacedName → Option Lifecycle

/-- Write a record's lifecycle fields. -/
def Store.put (s : Store) (key : NamespacedName) (m : Lifecycle) : Store :=
  fun k => if k = key then some m else s k

/-- Physically remove a record. -/
def Store.delete (s : Store) (key : NamespacedName) : Store :=
  fun k => if k = key then none else s k

/-- Whether the record `key` exists in the store and carries the token `finalizer`. -/
def Store.hasToken (s : Store) (key : NamespacedName) (finalizer : String) : Bool :=
  match s key with
  | none => false
  | some m => decide (finalizer ∈ m.Finalizers)

/-- One collaborator call, with what it returned. -/
inductive Call where
  | Get (key : NamespacedName) (err : Option Error)
  | AddFinalizers (key : NamespacedName) (finalizer : String) (err : Option Error)
  | Reconcile (key : NamespacedName) (err : Option Error)
  | Cleanup (key : NamespacedName) (err : Option Error)
  | RemoveFinalizers (key : NamespacedName) (finalizer : String) (err : Option Error)
  | Event (key : NamespacedName) (eventtype reason message : String)
deriving DecidableEq, Repr

/-- The state threaded through an invocation: the store and the calls made so
far, oldest first. -/
structure World where
  store : Store
  calls : List Call

/-- Append a call to the log. -/
def World.log (w : World) (c : Call) : World :=
  { w with calls := w.calls ++ [c] }

/-- What each collaborator returns when it is called during one invocation.
`Get = none` means the store answers truthfully (the record, or a not-found
error when it is absent); `Get = some e` is a failed fetch. -/
structure Outcomes where
  Get : Option Error
  AddFinalizers : Option Error
  Reconcile : Option Error
  Cleanup : Option Error
  RemoveFinalizers : Option Error
deriving DecidableEq, Repr

/-! ## Collaborators -/

/-- Modelled from the spec: the constant `k8s.FinalizerAWSAppMeshResources`
(package `pkg/k8s`), this controller's guard token.  No proof depends on its
value. -/
def FinalizerAWSAppMeshResources : String :=
  "finalizers.appmesh.k8s.aws/aws-appmesh-resources"

/-- The constant `corev1.EventTypeWarning`. -/
def EventTypeWarning : String := "Warning"

/-- The error the store returns for an absent record (`apierrors.NewNotFound`,
which quotes the name). -/
def notFoundError (key : NamespacedName) : Error :=
  ⟨true, "virtualnodes.appmesh.k8s.aws \"" ++ key.Name ++ "\" not found"⟩

/-- Function `client.IgnoreNotFound`: nil for a not-found error, the error otherwise. -/
def IgnoreNotFound (err : Error) : Option Error :=
  if err.notFound then none else some err

/-- Modelled from the spec: the store interface `Get(identity) -> record | NotFound`
(`k8sClient.Get`), which may also fail with any other error. -/
def k8sClientGet (o : Outcomes) (key : NamespacedName) (w : World) :
    Except Error VirtualNode × World :=
  match o.Get with
  | some e => (.error e, w.log (.Get key (some e)))
  | none =>
    match w.store key with
    | none => (.error (notFoundError key), w.log (.Get key (some (notFoundError key))))
    | some m =>
      (.ok ⟨key.Namespace, key.Name, m.DeletionTimestamp, m.Finalizers⟩, w.log (.Get key none))

/-- Modelled from the spec: `k8s.HasFinalizer` (package `pkg/k8s`), the store
interface `HasGuardToken(record, token) -> bool`. -/
def HasFinalizer (vn : VirtualNode) (finalizer : String) : Bool :=
  decide (finalizer ∈ vn.Finalizers)

/-- Modelled from the spec: `finalizerManager.AddFinalizers` (package `pkg/k8s`),
the store interface `AddGuardToken`.  Adding is an idempotent set insert; a
rejected add changes nothing. -/
def AddFinalizers (o : Outcomes) (vn : VirtualNode) (finalizer : String) (w : World) :
    Option Error × World :=
  match o.AddFinalizers with
  | some e => (some e, w.log (.AddFinalizers vn.key finalizer (some e)))
  | none =>
    let fs := if finalizer ∈ vn.Finalizers then vn.Finalizers else vn.Finalizers ++ [finalizer]
    (none, { store := w.store.put vn.key ⟨vn.DeletionTimestamp, fs⟩,
             calls := w.calls ++ [.AddFinalizers vn.key finalizer none] })

/-- Modelled from the spec: `finalizerManager.RemoveFinalizers` (package
`pkg/k8s`), the store interface `RemoveGuardToken`.  Removing is an idempotent
set delete; a rejected remove changes nothing.  The store physically removes a
record once its deletion marker is set and no guard token is left. -/
def RemoveFinalizers (o : Outcomes) (vn : VirtualNode) (finalizer : String) (w : World) :
    Option Error × World :=
  match o.RemoveFinalizers with
  | some e => (some e, w.log (.RemoveFinalizers vn.key finalizer (some e)))
  | none =>
    let fs := vn.Finalizers.filter (fun f => f != finalizer)
    let store :=
      if IsZero vn.DeletionTimestamp = false ∧ fs = [] then w.store.delete vn.key
      else w.store.put vn.key ⟨vn.DeletionTimestamp, fs⟩
    (none, { store := store, calls := w.calls ++ [.RemoveFinalizers vn.key finalizer none] })

/-- Modelled from the spec: the Convergence Engine's `Converge(record) -> error`
(`vnResManager.Reconcile`, package `pkg/virtualnode`).  It touches external
state and `status` only, never the lifecycle fields. -/
def vnResManagerReconcile (o : Outcomes) (vn : VirtualNode) (w : World) : Option Error × World :=
  (o.Reconcile, w.log (.Reconcile vn.key o.Reconcile))

/-- Modelled from the spec: the Convergence Engine's `Teardown(record) -> error`
(`vnResManager.Cleanup`, package `pkg/virtualnode`).  It touches external state
only, never the lifecycle fields. -/
def vnResManagerCleanup (o : Outcomes) (vn : VirtualNode) (w : World) : Option Error × World :=
  (o.Cleanup, w.log (.Cleanup vn.key o.Cleanup))

/-- The diagnostic sink `recorder.Event(object, eventtype, reason, message)`:
fire-and-forget. -/
def recorderEvent (vn : VirtualNode) (eventtype reason message : String) (w : World) : World :=
  w.log (.Event vn.key eventtype reason message)

/-! ## The reconciler -/

/-- Method `virtualNodeReconciler.reconcileVirtualNode`: add the guard token, then
converge; the first error is returned. -/
def reconcileVirtualNode (o : Outcomes) (vn : VirtualNode) (w : World) : Option Error × World :=
  match AddFinalizers o vn FinalizerAWSAppMeshResources w with
  | (some err, w) => (some err, w)
  | (none, w) =>
    match vnResManagerReconcile o vn w with
    | (some err, w) => (some err, w)
    | (none, w) => (none, w)

/-- Method `virtualNodeReconciler.cleanupVirtualNode`: when the guard token is
present, tear down, then remove the guard token; the first error is returned. -/
def cleanupVirtualNode (o : Outcomes) (vn : VirtualNode) (w : World) : Option Error × World :=
  if HasFinalizer vn FinalizerAWSAppMeshResources then
    match vnResManagerCleanup o vn w with
    | (some err, w) => (some err, w)
    | (none, w) =>
      match RemoveFinalizers o vn FinalizerAWSAppMeshResources w with
      | (some err, w) => (some err, w)
      | (none, w) => (none, w)
  else (none, w)

/-- Method `virtualNodeReconciler.reconcile`: fetch the record, ignore not-found,
dispatch on the deletion marker, and record a diagnostic for a forward-path
error. -/
def reconcile (o : Outcomes) (req : NamespacedName) (w : World) : Option Error × World :=
  match k8sClientGet o req w with
  | (.error err, w) => (IgnoreNotFound err, w)
  | (.ok vn, w) =>
    if !IsZero vn.DeletionTimestamp then
      cleanupVirtualNode o vn w
    else
      match reconcileVirtualNode o vn w with
      | (some err, w) => (some err, recorderEvent vn EventTypeWarning "ReconcileError" err.message w)
      | (none, w) => (none, w)

/-- One invocation of `reconcile` for `req` against `store`, with an empty call log. -/
def run (o : Outcomes) (req : NamespacedName) (store : Store) : Option Error × World :=
  reconcile o req ⟨store, []⟩

/-! ## Predicates on the call log -/

/-- The call is a `finalizerManager.AddFinalizers` call. -/
def Call.isAddFinalizers : Call → Bool
  | .AddFinalizers _ _ _ => true
  | _ => false

/-- The call is a `vnResManager.Reconcile` (Converge) call. -/
def Call.isReconcile : Call → Bool
  | .Reconcile _ _ => true
  | _ => false

/-- The call is a `vnResManager.Cleanup` (Teardown) call. -/
def Call.isCleanup : Call → Bool
  | .Cleanup _ _ => true
  | _ => false

/-- The call is a `finalizerManager.RemoveFinalizers` call. -/
def Call.isRemoveFinalizers : Call → Bool
  | .RemoveFinalizers _ _ _ => true
  | _ => false

/-- The call is a `recorder.Event` call. -/
def Call.isEvent : Call → Bool
  | .Event _ _ _ _ => true
  | _ => false

/-- The error a call failed with, if any, read off the log entry alone: the
returned error, except that a `Get` error for which `apierrors.IsNotFound` holds
does not count as a failure. -/
def Call.failure : Call → Option Error
  | .Get _ (some e) => if e.notFound = true then none else some e
  | .Get _ none => none
  | .AddFinalizers _ _ e => e
  | .Reconcile _ e => e
  | .Cleanup _ e => e
  | .RemoveFinalizers _ _ e => e
  | .Event _ _ _ _ => none

/-- Checker: in the log, the first call satisfying `q` (if any) comes after a
call satisfying `p`. -/
def precededBy (p q : Call → Bool) : List Call → Bool
  | [] => true
  | c :: rest => if q c then false else if p c then true else precededBy p q rest

/-- Checker: after the first failing call, the log holds diagnostics only. -/
def quietAfterFailure : List Call → Bool
  | [] => true
  | c :: rest => if c.failure.isSome then rest.all Call.isEvent else quietAfterFailure rest

/-! ## Concrete inputs -/

/-- Collaborators that all succeed. -/
def allSucceed : Outcomes := ⟨none, none, none, none, none⟩

/-- A sample identity. -/
def sampleKey : NamespacedName := ⟨"default", "vn-a"⟩

/-- A sample error that is not a not-found error. -/
def sampleError : Error := ⟨false, "Throttling: rate exceeded"⟩

/-- The store without any record. -/
def emptyStore : Store := fun _ => none

/-- A store whose only record is `sampleKey`, with the given lifecycle fields. -/
def storeWith (m : Lifecycle) : Store := emptyStore.put sampleKey m

/-- An active record without any guard token. -/
def activeUnguarded : Store := storeWith ⟨none, []⟩

/-- A record pending deletion that carries this controller's guard token. -/
def deletingGuarded : Store := storeWith ⟨some 1700000000, [FinalizerAWSAppMeshResources]⟩

/-- A record pending deletion that carries only a foreign guard token. -/
def deletingUnguarded : Store := storeWith ⟨some 1700000000, ["example.com/other"]⟩

/-! ## Helper lemmas -/

@[simp] theorem key_mk (ns n : String) (t : Option Nat) (fs : List String) :
    VirtualNode.key ⟨ns, n, t, fs⟩ = ⟨ns, n⟩ := rfl

@[simp] theorem namespacedName_eta (k : NamespacedName) :
    (⟨k.Namespace, k.Name⟩ : NamespacedName) = k := rfl

theorem isEvent_failure (c : Call) (h : c.isEvent = true) : c.failure = none := by
  cases c <;> first | rfl | simp [Call.isEvent] at h

theorem precededBy_sound (p q : Call → Bool) :
    ∀ (l pre : List Call) (c : Call) (post : List Call),
      precededBy p q l = true → l = pre ++ c :: post → q c = true → ∃ d ∈ pre, p d = true := by
  intro l
  induction l with
  | nil => intro pre c post _ h; simp at h
  | cons a rest ih =>
    intro pre c post hp h hq
    cases pre with
    | nil =>
      simp at h
      obtain ⟨rfl, _⟩ := h
      simp [precededBy, hq] at hp
    | cons b pre' =>
      simp at h
      obtain ⟨rfl, hrest⟩ := h
      by_cases hpa : p a = true
      · exact ⟨a, by simp, hpa⟩
      · have hqa : q a = false := by
          cases hqa : q a
          · rfl
          · simp [precededBy, hqa] at hp
        simp [precededBy, hqa, hpa] at hp
        obtain ⟨d, hd, hpd⟩ := ih pre' c post hp hrest hq
        exact ⟨d, by simp [hd], hpd⟩

theorem quietAfterFailure_sound :
    ∀ (l pre : List Call) (c : Call) (post : List Call),
      quietAfterFailure l = true → l = pre ++ c :: post → c.failure ≠ none →
      ∀ d ∈ post, d.isEvent = true := by
  intro l
  induction l with
  | nil => intro pre c post _ h; simp at h
  | cons a rest ih =>
    intro pre c post hq h hc
    cases pre with
    | nil =>
      simp at h
      obtain ⟨rfl, rfl⟩ := h
      have hs : a.failure.isSome = true := by
        cases hf : a.failure
        · exact absurd hf hc
        · rfl
      simp [quietAfterFailure, hs] at hq
      exact hq
    | cons b pre' =>
      simp at h
      obtain ⟨rfl, hrest⟩ := h
      cases hf : a.failure with
      | none =>
        simp [quietAfterFailure, hf] at hq
        exact ih pre' c post hq hrest hc
      | some e =>
        simp [quietAfterFailure, hf] at hq
        have hcm : c ∈ rest := by simp [hrest]
        exact absurd (isEvent_failure c (hq c hcm)) hc

theorem run_removal_preceded (o : Outcomes) (req : NamespacedName) (store : Store) :
    precededBy (fun c => decide (c = Call.Cleanup req none)) Call.isRemoveFinalizers
      (run o req store).2.calls = true := by
  rcases o with ⟨g, a, r, c, rm⟩
  cases hS : store req with
  | none =>
    cases g <;> simp [run, reconcile, k8sClientGet, hS, World.log, precededBy,
      Call.isRemoveFinalizers]
  | some m =>
    cases hZ : IsZero m.DeletionTimestamp <;>
    cases hF : decide (FinalizerAWSAppMeshResources ∈ m.Finalizers) <;>
    cases g <;> cases a <;> cases r <;> cases c <;> cases rm <;>
    simp [run, reconcile, k8sClientGet, hS, hZ, hF, World.log, precededBy,
      Call.isRemoveFinalizers, cleanupVirtualNode, reconcileVirtualNode, HasFinalizer,
      AddFinalizers, RemoveFinalizers, vnResManagerReconcile, vnResManagerCleanup,
      recorderEvent]

theorem get_ok (o : Outcomes) (req : NamespacedName) (store : Store) (vn : VirtualNode)
    (h : (k8sClientGet o req ⟨store, []⟩).1 = .ok vn) :
    o.Get = none ∧ ∃ m, store req = some m ∧
      vn = ⟨req.Namespace, req.Name, m.DeletionTimestamp, m.Finalizers⟩ := by
  rcases o with ⟨g, a, r, c, rm⟩
  cases g with
  | some e => simp [k8sClientGet] at h
  | none =>
    cases hS : store req with
    | none => simp [k8sClientGet, hS] at h
    | some m =>
      simp [k8sClientGet, hS] at h
      exact ⟨rfl, m, rfl, h.symm⟩

theorem put_put (s : Store) (k : NamespacedName) (m : Lifecycle) :
    (s.put k m).put k m = s.put k m := by
  funext x
  by_cases hx : x = k <;> simp [Store.put, hx]

theorem hasToken_lookup (s : Store) (k : NamespacedName) (m : Lifecycle) (f : String)
    (h : s k = some m) : s.hasToken k f = decide (f ∈ m.Finalizers) := by
  simp [Store.hasToken, h]

theorem hasToken_removed (s : Store) (k : NamespacedName) (t : Option Nat) (fs : List String)
    (f : String) (c : Prop) [Decidable c] :
    Store.hasToken
      (if c then s.delete k else s.put k ⟨t, fs.filter (fun x => x != f)⟩) k f = false := by
  split <;> simp [Store.hasToken, Store.delete, Store.put]

theorem run_quiet_after_failure (o : Outcomes) (req : NamespacedName) (store : Store) :
    quietAfterFailure (run o req store).2.calls = true := by
  rcases o with ⟨g, a, r, c, rm⟩
  cases hS : store req with
  | none =>
    cases g <;> simp [run, reconcile, k8sClientGet, hS, World.log, quietAfterFailure,
      Call.failure, IgnoreNotFound, notFoundError]
  | some m =>
    cases hZ : IsZero m.DeletionTimestamp <;>
    cases hF : decide (FinalizerAWSAppMeshResources ∈ m.Finalizers) <;>
    cases g <;> cases a <;> cases r <;> cases c <;> cases rm <;>
    simp [run, reconcile, k8sClientGet, hS, hZ, hF, World.log, quietAfterFailure,
      Call.failure, Call.isEvent, cleanupVirtualNode, reconcileVirtualNode, HasFinalizer,
      AddFinalizers, RemoveFinalizers, vnResManagerReconcile, vnResManagerCleanup,
      recorderEvent]

theorem run_converge_preceded (o : Outcomes) (req : NamespacedName) (store : Store) :
    precededBy (fun c => decide (c = Call.AddFinalizers req FinalizerAWSAppMeshResources none))
      Call.isReconcile (run o req store).2.calls = true := by
  rcases o with ⟨g, a, r, c, rm⟩
  cases hS : store req with
  | none =>
    cases g <;> simp [run, reconcile, k8sClientGet, hS, World.log, precededBy, Call.isReconcile]
  | some m =>
    cases hZ : IsZero m.DeletionTimestamp <;>
    cases hF : decide (FinalizerAWSAppMeshResources ∈ m.Finalizers) <;>
    cases g <;> cases a <;> cases r <;> cases c <;> cases rm <;>
    simp [run, reconcile, k8sClientGet, hS, hZ, hF, World.log, precededBy,
      Call.isReconcile, cleanupVirtualNode, reconcileVirtualNode, HasFinalizer,
      AddFinalizers, RemoveFinalizers, vnResManagerReconcile, vnResManagerCleanup,
      recorderEvent]

theorem run_absent (req : NamespacedName) (store : Store) (hS : store req = none) :
    run allSucceed req store = (none, ⟨store, [.Get req (some (notFoundError req))]⟩) := by
  simp [run, reconcile, k8sClientGet, allSucceed, hS, World.log, IgnoreNotFound, notFoundError]

theorem run_active (req : NamespacedName) (store : Store) (m : Lifecycle)
    (hS : store req = some m) (hZ : IsZero m.DeletionTimestamp = true) :
    run allSucceed req store =
      (none, ⟨store.put req ⟨m.DeletionTimestamp,
                if FinalizerAWSAppMeshResources ∈ m.Finalizers then m.Finalizers
                else m.Finalizers ++ [FinalizerAWSAppMeshResources]⟩,
              [.Get req none, .AddFinalizers req FinalizerAWSAppMeshResources none,
               .Reconcile req none]⟩) := by
  simp [run, reconcile, k8sClientGet, allSucceed, hS, hZ, World.log, reconcileVirtualNode,
    AddFinalizers, vnResManagerReconcile]

theorem run_deleting_guarded (req : NamespacedName) (store : Store) (m : Lifecycle)
    (hS : store req = some m) (hZ : IsZero m.DeletionTimestamp = false)
    (hF : FinalizerAWSAppMeshResources ∈ m.Finalizers) :
    run allSucceed req store =
      (none, ⟨if m.Finalizers.filter (fun f => f != FinalizerAWSAppMeshResources) = []
              then store.delete req
              else store.put req ⟨m.DeletionTimestamp,
                m.Finalizers.filter (fun f => f != FinalizerAWSAppMeshResources)⟩,
              [.Get req none, .Cleanup req none,
               .RemoveFinalizers req FinalizerAWSAppMeshResources none]⟩) := by
  simp [run, reconcile, k8sClientGet, allSucceed, hS, hZ, hF, World.log, cleanupVirtualNode,
    HasFinalizer, RemoveFinalizers, vnResManagerCleanup]

theorem run_deleting_unguarded (o : Outcomes) (req : NamespacedName) (store : Store)
    (m : Lifecycle) (hG : o.Get = none)
    (hS : store req = some m) (hZ : IsZero m.DeletionTimestamp = false)
    (hF : FinalizerAWSAppMeshResources ∉ m.Finalizers) :
    run o req store = (none, ⟨store, [.Get req none]⟩) := by
  simp [run, reconcile, k8sClientGet, hG, hS, hZ, hF, World.log, cleanupVirtualNode,
    HasFinalizer]

/-! ## Claims -/

/-- C1 (as stated, refuted): a record pending deletion that carries the guard
token, Teardown succeeds, yet `RemoveFinalizers` is rejected: the guard token is
still present afterwards and reconcile returns the rejection. -/
theorem C1_counterexample :
    (k8sClientGet { allSucceed with RemoveFinalizers := some sampleError } sampleKey
        ⟨deletingGuarded, []⟩).1
      = .ok ⟨"default", "vn-a", some 1700000000, [FinalizerAWSAppMeshResources]⟩ ∧
    IsZero (some 1700000000) = false ∧
    HasFinalizer ⟨"default", "vn-a", some 1700000000, [FinalizerAWSAppMeshResources]⟩
      FinalizerAWSAppMeshResources = true ∧
    (run { allSucceed with RemoveFinalizers := some sampleError } sampleKey deletingGuarded).2.calls
      = [.Get sampleKey none, .Cleanup sampleKey none,
         .RemoveFinalizers sampleKey FinalizerAWSAppMeshResources (some sampleError)] ∧
    (run { allSucceed with RemoveFinalizers := some sampleError } sampleKey
        deletingGuarded).2.store.hasToken sampleKey FinalizerAWSAppMeshResources = true ∧
    (run { allSucceed with RemoveFinalizers := some sampleError } sampleKey deletingGuarded).1
      = some sampleError :=
  ⟨rfl, by decide, by decide, by decide, by decide, by decide⟩

/-- C1 (amended): for a record pending deletion that carries the guard token,
Teardown is the first call after the fetch.  If Teardown succeeds,
`RemoveFinalizers` is invoked next for `FinalizerAWSAppMeshResources`; if that
succeeds too, reconcile succeeds and the token is absent afterwards, and if it is
rejected, reconcile returns the rejection and the store is unchanged.  If
Teardown fails, `RemoveFinalizers` is not invoked, the store is unchanged (the
token remains) and reconcile returns Teardown's error. -/
theorem C1_teardown_then_release (o : Outcomes) (req : NamespacedName) (store : Store)
    (vn : VirtualNode)
    (hget : (k8sClientGet o req ⟨store, []⟩).1 = .ok vn)
    (hdel : IsZero vn.DeletionTimestamp = false)
    (hfin : HasFinalizer vn FinalizerAWSAppMeshResources = true) :
    (∃ rest, (run o req store).2.calls = .Get req none :: .Cleanup req o.Cleanup :: rest) ∧
    (o.Cleanup = none →
      (run o req store).2.calls =
        [.Get req none, .Cleanup req none,
         .RemoveFinalizers req FinalizerAWSAppMeshResources o.RemoveFinalizers]) ∧
    (o.Cleanup = none → o.RemoveFinalizers = none →
      (run o req store).1 = none ∧
      (run o req store).2.store.hasToken req FinalizerAWSAppMeshResources = false) ∧
    (o.Cleanup = none → ∀ e, o.RemoveFinalizers = some e →
      (run o req store).1 = some e ∧ (run o req store).2.store = store ∧
      (run o req store).2.store.hasToken req FinalizerAWSAppMeshResources = true) ∧
    (∀ e, o.Cleanup = some e →
      (run o req store).1 = some e ∧
      (run o req store).2.calls = [.Get req none, .Cleanup req (some e)] ∧
      (run o req store).2.store = store ∧
      (run o req store).2.store.hasToken req FinalizerAWSAppMeshResources = true) := by
  obtain ⟨hG, m, hS, rfl⟩ := get_ok o req store vn hget
  rcases o with ⟨g, a, r, c, rm⟩
  simp only at hG hdel
  subst hG
  simp only [HasFinalizer] at hfin
  have hmem : FinalizerAWSAppMeshResources ∈ m.Finalizers := by simpa using hfin
  have htok := hasToken_lookup store req m FinalizerAWSAppMeshResources hS
  cases c <;> cases rm <;>
    simp [run, reconcile, k8sClientGet, hS, hdel, hfin, hmem, htok, World.log,
      cleanupVirtualNode, HasFinalizer, RemoveFinalizers, vnResManagerCleanup]
  exact hasToken_removed store req _ _ _ _

/-- Witness for C1: the sample record pending deletion, all collaborators succeeding. -/
theorem C1_teardown_then_release_witness :
    (k8sClientGet allSucceed sampleKey ⟨deletingGuarded, []⟩).1
      = .ok ⟨"default", "vn-a", some 1700000000, [FinalizerAWSAppMeshResources]⟩ ∧
    IsZero (some 1700000000) = false ∧
    HasFinalizer ⟨"default", "vn-a", some 1700000000, [FinalizerAWSAppMeshResources]⟩
      FinalizerAWSAppMeshResources = true ∧
    (run allSucceed sampleKey deletingGuarded).1 = none ∧
    (run allSucceed sampleKey deletingGuarded).2.store.hasToken sampleKey
      FinalizerAWSAppMeshResources = false :=
  ⟨rfl, by decide, by decide,
   (C1_teardown_then_release allSucceed sampleKey deletingGuarded
     ⟨"default", "vn-a", some 1700000000, [FinalizerAWSAppMeshResources]⟩
     rfl (by decide) (by decide)).2.2.1 rfl rfl⟩

/-- C2: in a single invocation, whatever the store holds and whatever the
collaborators return, every `RemoveFinalizers` call in the log is preceded by a
Teardown (`Cleanup`) call on the same record that returned success. -/
theorem C2_release_only_after_teardown (o : Outcomes) (req : NamespacedName) (store : Store)
    (pre : List Call) (c : Call) (post : List Call)
    (hlog : (run o req store).2.calls = pre ++ c :: post)
    (hc : c.isRemoveFinalizers = true) :
    Call.Cleanup req none ∈ pre := by
  obtain ⟨d, hd, hp⟩ := precededBy_sound _ _ _ pre c post (run_removal_preceded o req store) hlog hc
  have : d = Call.Cleanup req none := by simpa using hp
  exact this ▸ hd

/-- Witness for C2: the sample record pending deletion, all collaborators succeeding. -/
theorem C2_release_only_after_teardown_witness :
    (run allSucceed sampleKey deletingGuarded).2.calls =
      [.Get sampleKey none, .Cleanup sampleKey none] ++
        .RemoveFinalizers sampleKey FinalizerAWSAppMeshResources none :: [] ∧
    Call.Cleanup sampleKey none ∈ [Call.Get sampleKey none, Call.Cleanup sampleKey none] :=
  ⟨by decide,
   C2_release_only_after_teardown allSucceed sampleKey deletingGuarded
     [.Get sampleKey none, .Cleanup sampleKey none]
     (.RemoveFinalizers sampleKey FinalizerAWSAppMeshResources none) [] (by decide) rfl⟩

/-- C3: when the fetch reports not-found, reconcile returns success, the fetch
is the only call in the log (no `AddFinalizers`, Converge, Teardown,
`RemoveFinalizers`, and no diagnostic event), and the store is unchanged. -/
theorem C3_not_found_is_noop (o : Outcomes) (req : NamespacedName) (store : Store) (e : Error)
    (hget : (k8sClientGet o req ⟨store, []⟩).1 = .error e)
    (hnf : e.notFound = true) :
    (run o req store).1 = none ∧
    (run o req store).2.calls = [.Get req (some e)] ∧
    (run o req store).2.store = store := by
  rcases o with ⟨g, a, r, c, rm⟩
  cases g with
  | some e' =>
    simp [k8sClientGet] at hget
    subst hget
    simp [run, reconcile, k8sClientGet, World.log, IgnoreNotFound, hnf]
  | none =>
    cases hS : store req with
    | none =>
      simp [k8sClientGet, hS] at hget
      subst hget
      simp [run, reconcile, k8sClientGet, hS, World.log, IgnoreNotFound, notFoundError]
    | some m => simp [k8sClientGet, hS] at hget

/-- Witness for C3: the empty store, all collaborators succeeding. -/
theorem C3_not_found_is_noop_witness :
    (notFoundError sampleKey).notFound = true ∧
    (run allSucceed sampleKey emptyStore).1 = none ∧
    (run allSucceed sampleKey emptyStore).2.calls
      = [.Get sampleKey (some (notFoundError sampleKey))] ∧
    (run allSucceed sampleKey emptyStore).2.store = emptyStore :=
  ⟨rfl, C3_not_found_is_noop allSucceed sampleKey emptyStore (notFoundError sampleKey) rfl rfl⟩

/-- C4 (as stated, refuted): an active record without guard token whose
`AddFinalizers` call is rejected: the guard token is still absent afterwards. -/
theorem C4_counterexample :
    (k8sClientGet { allSucceed with AddFinalizers := some sampleError } sampleKey
        ⟨activeUnguarded, []⟩).1 = .ok ⟨"default", "vn-a", none, []⟩ ∧
    IsZero none = true ∧
    HasFinalizer ⟨"default", "vn-a", none, []⟩ FinalizerAWSAppMeshResources = false ∧
    (run { allSucceed with AddFinalizers := some sampleError } sampleKey activeUnguarded).2.calls
      = [.Get sampleKey none,
         .AddFinalizers sampleKey FinalizerAWSAppMeshResources (some sampleError),
         .Event sampleKey "Warning" "ReconcileError" sampleError.message] ∧
    (run { allSucceed with AddFinalizers := some sampleError } sampleKey
        activeUnguarded).2.store.hasToken sampleKey FinalizerAWSAppMeshResources = false :=
  ⟨rfl, by decide, by decide, by decide, by decide⟩

/-- C4 (amended): for an active record (deletion marker unset) without guard
token, if `AddFinalizers` returns success then the guard token is present after
reconcile, whether Converge succeeds or fails; if `AddFinalizers` returns an
error, reconcile returns that error and the store is unchanged. -/
theorem C4_guard_added_when_accepted (o : Outcomes) (req : NamespacedName) (store : Store)
    (vn : VirtualNode)
    (hget : (k8sClientGet o req ⟨store, []⟩).1 = .ok vn)
    (hact : IsZero vn.DeletionTimestamp = true)
    (hfin : HasFinalizer vn FinalizerAWSAppMeshResources = false) :
    (o.AddFinalizers = none →
      (run o req store).2.store.hasToken req FinalizerAWSAppMeshResources = true) ∧
    (∀ e, o.AddFinalizers = some e →
      (run o req store).1 = some e ∧ (run o req store).2.store = store) := by
  obtain ⟨hG, m, hS, rfl⟩ := get_ok o req store vn hget
  rcases o with ⟨g, a, r, c, rm⟩
  simp only at hG hact
  subst hG
  simp only [HasFinalizer] at hfin
  have hmem : FinalizerAWSAppMeshResources ∉ m.Finalizers := by simpa using hfin
  cases a <;> cases r <;>
    simp [run, reconcile, k8sClientGet, hS, hact, hmem, World.log, reconcileVirtualNode,
      AddFinalizers, vnResManagerReconcile, recorderEvent, Store.hasToken, Store.put]

/-- Witness for C4: the sample active record, Converge failing. -/
theorem C4_guard_added_when_accepted_witness :
    (k8sClientGet { allSucceed with Reconcile := some sampleError } sampleKey
        ⟨activeUnguarded, []⟩).1 = .ok ⟨"default", "vn-a", none, []⟩ ∧
    IsZero none = true ∧
    HasFinalizer ⟨"default", "vn-a", none, []⟩ FinalizerAWSAppMeshResources = false ∧
    (run { allSucceed with Reconcile := some sampleError } sampleKey
        activeUnguarded).2.store.hasToken sampleKey FinalizerAWSAppMeshResources = true :=
  ⟨rfl, by decide, by decide,
   (C4_guard_added_when_accepted { allSucceed with Reconcile := some sampleError } sampleKey
     activeUnguarded ⟨"default", "vn-a", none, []⟩ rfl (by decide) (by decide)).1 rfl⟩

/-- C5 (the code diverges): a record pending deletion that carries the guard
token and whose Teardown fails.  Reconcile returns the Teardown error, yet the
log ends with the failed `Cleanup` call and holds no diagnostic event, whereas
on the forward path a failed Converge on the sample active record is followed by
the `ReconcileError` warning before the error is returned. -/
theorem C5_teardown_error_without_diagnostic :
    (run { allSucceed with Cleanup := some sampleError } sampleKey deletingGuarded).2.calls
      = [.Get sampleKey none, .Cleanup sampleKey (some sampleError)] ∧
    (run { allSucceed with Cleanup := some sampleError } sampleKey deletingGuarded).1
      = some sampleError ∧
    (run { allSucceed with Cleanup := some sampleError } sampleKey deletingGuarded).2.calls.any
      Call.isEvent = false ∧
    (run { allSucceed with Reconcile := some sampleError } sampleKey activeUnguarded).2.calls
      = [.Get sampleKey none, .AddFinalizers sampleKey FinalizerAWSAppMeshResources none,
         .Reconcile sampleKey (some sampleError),
         .Event sampleKey "Warning" "ReconcileError" sampleError.message] ∧
    (run { allSucceed with Reconcile := some sampleError } sampleKey activeUnguarded).1
      = some sampleError :=
  ⟨by decide, by decide, by decide, by decide, by decide⟩

/-- Forward path: whenever Converge returns an error during an invocation, the
very next call is a Warning diagnostic attached to the same record, with reason
`ReconcileError` and the error text, it is the last call, and reconcile returns
that error. -/
theorem converge_error_diagnosed (o : Outcomes) (req : NamespacedName) (store : Store)
    (key : NamespacedName) (e : Error)
    (h : Call.Reconcile key (some e) ∈ (run o req store).2.calls) :
    (run o req store).1 = some e ∧
    ∃ pre, (run o req store).2.calls =
      pre ++ [.Reconcile key (some e), .Event key EventTypeWarning "ReconcileError" e.message] := by
  rcases o with ⟨g, a, r, c, rm⟩
  revert h
  cases hS : store req with
  | none =>
    cases g <;> simp [run, reconcile, k8sClientGet, hS, World.log]
  | some m =>
    cases hZ : IsZero m.DeletionTimestamp <;>
    cases hF : decide (FinalizerAWSAppMeshResources ∈ m.Finalizers) <;>
    cases g <;> cases a <;> cases r <;> cases c <;> cases rm <;>
    simp [run, reconcile, k8sClientGet, hS, hZ, hF, World.log, cleanupVirtualNode,
      reconcileVirtualNode, HasFinalizer, AddFinalizers, RemoveFinalizers,
      vnResManagerReconcile, vnResManagerCleanup, recorderEvent] <;>
    intro hk he <;> subst hk <;> subst he <;>
    exact ⟨rfl, [.Get key none, .AddFinalizers key FinalizerAWSAppMeshResources none], rfl⟩

/-- C6: reconcile returns exactly the failure of the first failing call in its
log (`Get` with an error other than not-found, `AddFinalizers`, Converge,
Teardown or `RemoveFinalizers`), so it returns an error if and only if some call
failed; a fetch error other than not-found is returned unchanged and ends the
invocation; after a failing call the log holds no further Convergence Engine or
guard-token call (only the diagnostic event, if any). -/
theorem C6_first_failure_returned (o : Outcomes) (req : NamespacedName) (store : Store) :
    (run o req store).1 = (run o req store).2.calls.findSome? Call.failure ∧
    ((run o req store).1 ≠ none ↔ ∃ c ∈ (run o req store).2.calls, c.failure ≠ none) ∧
    (∀ e, o.Get = some e → e.notFound = false →
      (run o req store).1 = some e ∧ (run o req store).2.calls = [.Get req (some e)]) ∧
    ∀ (pre : List Call) (c : Call) (post : List Call),
      (run o req store).2.calls = pre ++ c :: post → c.failure ≠ none →
      ∀ d ∈ post, d.isEvent = true := by
  have first : (run o req store).1 = (run o req store).2.calls.findSome? Call.failure := by
    rcases o with ⟨g, a, r, c, rm⟩
    cases g with
    | some e =>
      rcases e with ⟨nf, msg⟩
      cases nf <;>
        simp [run, reconcile, k8sClientGet, World.log, Call.failure, List.findSome?,
          IgnoreNotFound]
    | none =>
      cases hS : store req with
      | none =>
        simp [run, reconcile, k8sClientGet, hS, World.log, Call.failure, List.findSome?,
          IgnoreNotFound, notFoundError]
      | some m =>
        cases hZ : IsZero m.DeletionTimestamp <;>
        cases hF : decide (FinalizerAWSAppMeshResources ∈ m.Finalizers) <;>
        cases a <;> cases r <;> cases c <;> cases rm <;>
        simp [run, reconcile, k8sClientGet, hS, hZ, hF, World.log, Call.failure,
          List.findSome?, cleanupVirtualNode, reconcileVirtualNode, HasFinalizer,
          AddFinalizers, RemoveFinalizers, vnResManagerReconcile, vnResManagerCleanup,
          recorderEvent]
  refine ⟨first, ?_, ?_, fun pre c post h hc =>
    quietAfterFailure_sound _ pre c post (run_quiet_after_failure o req store) h hc⟩
  · rw [first]
    simp
  · intro e hG hnf
    rcases o with ⟨g, a, r, c, rm⟩
    simp only at hG
    subst hG
    simp [run, reconcile, k8sClientGet, World.log, IgnoreNotFound, hnf]

/-- Witness for C6: a failed fetch of the sample record pending deletion (the
error is returned and nothing else is called), and the sample active record
whose `AddFinalizers` call is rejected (only the diagnostic follows). -/
theorem C6_first_failure_returned_witness :
    sampleError.notFound = false ∧
    (run { allSucceed with Get := some sampleError } sampleKey deletingGuarded).1
      = some sampleError ∧
    (run { allSucceed with Get := some sampleError } sampleKey deletingGuarded).2.calls
      = [.Get sampleKey (some sampleError)] ∧
    (run { allSucceed with AddFinalizers := some sampleError } sampleKey activeUnguarded).1
      = some sampleError ∧
    ∀ d ∈ [Call.Event sampleKey "Warning" "ReconcileError" sampleError.message],
      d.isEvent = true :=
  ⟨rfl,
   ((C6_first_failure_returned { allSucceed with Get := some sampleError } sampleKey
      deletingGuarded).2.2.1 sampleError rfl rfl).1,
   ((C6_first_failure_returned { allSucceed with Get := some sampleError } sampleKey
      deletingGuarded).2.2.1 sampleError rfl rfl).2,
   (C6_first_failure_returned { allSucceed with AddFinalizers := some sampleError } sampleKey
      activeUnguarded).1.trans (by decide),
   (C6_first_failure_returned { allSucceed with AddFinalizers := some sampleError } sampleKey
      activeUnguarded).2.2.2 [.Get sampleKey none]
      (.AddFinalizers sampleKey FinalizerAWSAppMeshResources (some sampleError))
      [.Event sampleKey "Warning" "ReconcileError" sampleError.message]
      (by decide) (by decide)⟩

/-- C7: on the forward path (deletion marker unset), every Converge call in the
log is preceded by an `AddFinalizers` call for `FinalizerAWSAppMeshResources` on
the same record that returned success; if `AddFinalizers` returns an error, the
log holds no Converge call and reconcile returns that error. -/
theorem C7_guard_before_converge (o : Outcomes) (req : NamespacedName) (store : Store)
    (vn : VirtualNode)
    (hget : (k8sClientGet o req ⟨store, []⟩).1 = .ok vn)
    (hact : IsZero vn.DeletionTimestamp = true) :
    (∀ (pre : List Call) (c : Call) (post : List Call),
      (run o req store).2.calls = pre ++ c :: post → c.isReconcile = true →
      Call.AddFinalizers req FinalizerAWSAppMeshResources none ∈ pre) ∧
    (∀ e, o.AddFinalizers = some e →
      (run o req store).1 = some e ∧ ∀ c ∈ (run o req store).2.calls, c.isReconcile = false) := by
  constructor
  · intro pre c post h hc
    obtain ⟨d, hd, hp⟩ :=
      precededBy_sound _ _ _ pre c post (run_converge_preceded o req store) h hc
    have : d = Call.AddFinalizers req FinalizerAWSAppMeshResources none := by simpa using hp
    exact this ▸ hd
  · obtain ⟨hG, m, hS, rfl⟩ := get_ok o req store vn hget
    rcases o with ⟨g, a, r, c, rm⟩
    simp only at hG hact
    subst hG
    intro e he
    simp only at he
    subst he
    simp [run, reconcile, k8sClientGet, hS, hact, World.log, reconcileVirtualNode,
      AddFinalizers, recorderEvent, Call.isReconcile]

/-- Witness for C7: the sample active record, all collaborators succeeding. -/
theorem C7_guard_before_converge_witness :
    (k8sClientGet allSucceed sampleKey ⟨activeUnguarded, []⟩).1
      = .ok ⟨"default", "vn-a", none, []⟩ ∧
    IsZero none = true ∧
    (run allSucceed sampleKey activeUnguarded).2.calls =
      [.Get sampleKey none, .AddFinalizers sampleKey FinalizerAWSAppMeshResources none] ++
        .Reconcile sampleKey none :: [] ∧
    Call.AddFinalizers sampleKey FinalizerAWSAppMeshResources none ∈
      [Call.Get sampleKey none, Call.AddFinalizers sampleKey FinalizerAWSAppMeshResources none] :=
  ⟨rfl, by decide, by decide,
   (C7_guard_before_converge allSucceed sampleKey activeUnguarded ⟨"default", "vn-a", none, []⟩
     rfl (by decide)).1 [.Get sampleKey none,
       .AddFinalizers sampleKey FinalizerAWSAppMeshResources none]
     (.Reconcile sampleKey none) [] (by decide) rfl⟩

/-- C8: for a record pending deletion without this controller's guard token,
reconcile returns success, the fetch is the only call in the log (no Teardown,
`RemoveFinalizers`, `AddFinalizers`, Converge, and no diagnostic event), and the
store, hence the record's marker and guard tokens, is unchanged. -/
theorem C8_unguarded_deletion_is_noop (o : Outcomes) (req : NamespacedName) (store : Store)
    (vn : VirtualNode)
    (hget : (k8sClientGet o req ⟨store, []⟩).1 = .ok vn)
    (hdel : IsZero vn.DeletionTimestamp = false)
    (hfin : HasFinalizer vn FinalizerAWSAppMeshResources = false) :
    (run o req store).1 = none ∧
    (run o req store).2.calls = [.Get req none] ∧
    (run o req store).2.store = store := by
  obtain ⟨hG, m, hS, rfl⟩ := get_ok o req store vn hget
  rcases o with ⟨g, a, r, c, rm⟩
  simp only at hG hdel
  subst hG
  simp [run, reconcile, k8sClientGet, hS, hdel, hfin, World.log, cleanupVirtualNode]

/-- Witness for C8: the sample record pending deletion with a foreign token only. -/
theorem C8_unguarded_deletion_is_noop_witness :
    (k8sClientGet allSucceed sampleKey ⟨deletingUnguarded, []⟩).1
      = .ok ⟨"default", "vn-a", some 1700000000, ["example.com/other"]⟩ ∧
    IsZero (some 1700000000) = false ∧
    HasFinalizer ⟨"default", "vn-a", some 1700000000, ["example.com/other"]⟩
      FinalizerAWSAppMeshResources = false ∧
    (run allSucceed sampleKey deletingUnguarded).1 = none ∧
    (run allSucceed sampleKey deletingUnguarded).2.calls = [.Get sampleKey none] ∧
    (run allSucceed sampleKey deletingUnguarded).2.store = deletingUnguarded :=
  ⟨rfl, by decide, by decide,
   C8_unguarded_deletion_is_noop allSucceed sampleKey deletingUnguarded
     ⟨"default", "vn-a", some 1700000000, ["example.com/other"]⟩ rfl (by decide) (by decide)⟩

/-- C9: with collaborators that all succeed, running reconcile a second time on
the store left by the first run succeeds, leaves that store unchanged, and its
log holds, after the fetch, either nothing or exactly one `AddFinalizers` and one
Converge call, in which case it equals the log of the first run. -/
theorem C9_reconcile_idempotent (req : NamespacedName) (store : Store) :
    (run allSucceed req store).1 = none ∧
    (run allSucceed req (run allSucceed req store).2.store).1 = none ∧
    (run allSucceed req (run allSucceed req store).2.store).2.store
      = (run allSucceed req store).2.store ∧
    ((∃ g, (run allSucceed req (run allSucceed req store).2.store).2.calls = [.Get req g]) ∨
     ((run allSucceed req (run allSucceed req store).2.store).2.calls
        = [.Get req none, .AddFinalizers req FinalizerAWSAppMeshResources none,
           .Reconcile req none] ∧
      (run allSucceed req (run allSucceed req store).2.store).2.calls
        = (run allSucceed req store).2.calls)) := by
  cases hS : store req with
  | none =>
    simp [run_absent req store hS]
  | some m =>
    cases hZ : IsZero m.DeletionTimestamp with
    | true =>
      have h1 := run_active req store m hS hZ
      have hS2 : (store.put req ⟨m.DeletionTimestamp,
          if FinalizerAWSAppMeshResources ∈ m.Finalizers then m.Finalizers
          else m.Finalizers ++ [FinalizerAWSAppMeshResources]⟩) req
          = some ⟨m.DeletionTimestamp,
              if FinalizerAWSAppMeshResources ∈ m.Finalizers then m.Finalizers
              else m.Finalizers ++ [FinalizerAWSAppMeshResources]⟩ := by
        simp [Store.put]
      have h2 := run_active req _ _ hS2 hZ
      have hmem : FinalizerAWSAppMeshResources ∈
          (if FinalizerAWSAppMeshResources ∈ m.Finalizers then m.Finalizers
           else m.Finalizers ++ [FinalizerAWSAppMeshResources]) := by
        split <;> simp_all
      simp only [hmem, if_true, put_put] at h2
      simp [h1, h2]
    | false =>
      by_cases hF : FinalizerAWSAppMeshResources ∈ m.Finalizers
      · have h1 := run_deleting_guarded req store m hS hZ hF
        by_cases hE : m.Finalizers.filter (fun f => f != FinalizerAWSAppMeshResources) = []
        · simp only [hE, if_true] at h1
          have hS2 : (store.delete req) req = none := by simp [Store.delete]
          simp [h1, run_absent req _ hS2]
        · simp only [hE, if_false] at h1
          have hS2 : (store.put req ⟨m.DeletionTimestamp,
              m.Finalizers.filter (fun f => f != FinalizerAWSAppMeshResources)⟩) req
              = some ⟨m.DeletionTimestamp,
                  m.Finalizers.filter (fun f => f != FinalizerAWSAppMeshResources)⟩ := by
            simp [Store.put]
          have hF2 : FinalizerAWSAppMeshResources ∉
              m.Finalizers.filter (fun f => f != FinalizerAWSAppMeshResources) := by
            simp
          simp [h1, run_deleting_unguarded allSucceed req _ _ rfl hS2 hZ hF2]
      · simp [run_deleting_unguarded allSucceed req store m rfl hS hZ hF]

/-- C10: deletion takes precedence over convergence.  For a stored record whose
deletion marker is set, whatever its guard tokens and whatever the collaborators
return, the log holds no `AddFinalizers` and no Converge call; for a stored
record whose marker is unset, the log holds no Teardown and no
`RemoveFinalizers` call. -/
theorem C10_deletion_precedence (o : Outcomes) (req : NamespacedName) (store : Store)
    (m : Lifecycle) (hS : store req = some m) :
    (IsZero m.DeletionTimestamp = false →
      ∀ c ∈ (run o req store).2.calls, c.isAddFinalizers = false ∧ c.isReconcile = false) ∧
    (IsZero m.DeletionTimestamp = true →
      ∀ c ∈ (run o req store).2.calls, c.isCleanup = false ∧ c.isRemoveFinalizers = false) := by
  rcases o with ⟨g, a, r, c, rm⟩
  constructor
  · intro hZ
    cases hF : decide (FinalizerAWSAppMeshResources ∈ m.Finalizers) <;>
    cases g <;> cases c <;> cases rm <;>
    simp [run, reconcile, k8sClientGet, hS, hZ, hF, World.log, cleanupVirtualNode,
      HasFinalizer, RemoveFinalizers, vnResManagerCleanup, Call.isAddFinalizers,
      Call.isReconcile]
  · intro hZ
    cases g <;> cases a <;> cases r <;>
    simp [run, reconcile, k8sClientGet, hS, hZ, World.log, reconcileVirtualNode,
      AddFinalizers, vnResManagerReconcile, recorderEvent, Call.isCleanup,
      Call.isRemoveFinalizers]

/-- Witness for C10: the sample record pending deletion, Teardown failing. -/
theorem C10_deletion_precedence_witness :
    deletingGuarded sampleKey = some ⟨some 1700000000, [FinalizerAWSAppMeshResources]⟩ ∧
    ∀ c ∈ (run { allSucceed with Cleanup := some sampleError } sampleKey deletingGuarded).2.calls,
      c.isAddFinalizers = false ∧ c.isReconcile = false :=
  ⟨by decide,
   (C10_deletion_precedence { allSucceed with Cleanup := some sampleError } sampleKey
     deletingGuarded ⟨some 1700000000, [FinalizerAWSAppMeshResources]⟩ (by decide)).1
     (by decide)⟩

end VirtualNodeController
